import Mathlib

/-!
Shallow embedding of the keep94/tasks repository: the recurring-schedule
algebra of src/recurring/recurring.go, the heap-based merge engine, and the
task-execution layer exercised by src/tasks_test.go.

Time values (Go time.Time) are modelled as total nanoseconds, an Int, in a
fixed-offset location (no daylight-saving transitions): a calendar day is a
contiguous block of dayNs nanoseconds, the day index of an instant is its
Euclidean division by dayNs, and Go AddDate(0, 0, 1) is addition of dayNs.
Go time.Duration is likewise an Int count of nanoseconds.
Go errors are modelled as Option String, none standing for nil.
-/

/-- Nanoseconds per minute, as in Go time.Minute. -/
def minuteNs : Int := 60000000000

/-- Nanoseconds per hour, as in Go time.Hour. -/
def hourNs : Int := 3600000000000

/-- Nanoseconds per calendar day in the fixed-offset model. -/
def dayNs : Int := 86400000000000

/-- States of the lazy pull streams of time values built in recurring.go:
intervalStream and dateStream are the two generator types of the source, and
sliceStream is the state of the external functional.Slice(s, 0, n) wrapper
used by FirstN, with its standard lazy-sequence semantics (emit the elements
of the underlying stream whose index is below n, then signal ended). -/
inductive GoStream where
  | intervalStream (t : Int) (d : Int)
  | dateStream (t : Int)
  | sliceStream (inner : GoStream) (emitted : Int) (n : Int)
deriving DecidableEq, Repr

/-- Next of the embedded streams. intervalStream.Next returns the stored t
and advances it by d (recurring.go lines 108-113); dateStream.Next returns
the stored t and advances it by one calendar day (lines 95-100); the slice
wrapper delegates while fewer than n values have been emitted and signals
ended afterwards. The returned Option is none when the pull signalled
ended or errored. -/
def streamNext : GoStream → Option Int × GoStream
  | .intervalStream t d => (some t, .intervalStream (t + d) d)
  | .dateStream t => (some t, .dateStream (t + dayNs))
  | .sliceStream inner k n =>
      if k < n then
        match streamNext inner with
        | (some v, inner2) => (some v, .sliceStream inner2 (k + 1) n)
        | (none, inner2) => (none, .sliceStream inner2 k n)
      else (none, .sliceStream inner k n)

/-- Value delivered by the (k+1)-st pull from stream s, none when that pull
signals ended. -/
def streamNth : GoStream → Nat → Option Int
  | s, 0 => (streamNext s).1
  | s, k + 1 => streamNth (streamNext s).2 k

/-- Pull up to n values from the stream, stopping early at the first pull
that signals ended; returns the values delivered and the final stream
state. -/
def streamTake : Nat → GoStream → List Int × GoStream
  | 0, s => ([], s)
  | k + 1, s =>
      match streamNext s with
      | (some v, s2) =>
          let r := streamTake k s2
          (v :: r.1, r.2)
      | (none, s2) => ([], s2)

/-- Close of the intervalStream and dateStream generators: the embedded
closeDoesNothing.Close of recurring.go lines 115-120, which returns nil and,
having a value receiver and an empty body, cannot touch the stream state. -/
def closeDoesNothing_Close (s : GoStream) : Option String × GoStream :=
  (none, s)

/-- A recurring schedule R, reduced to its only capability ForTime:
a function from a starting instant to a stream of time values
(recurring.go lines 16-21). -/
def RSched : Type := Int → GoStream

/-- AtInterval of recurring.go lines 72-76: ForTime t is an intervalStream
whose first value is t + d and whose step is d. -/
def AtInterval (d : Int) : RSched :=
  fun t => .intervalStream (t + d) d

/-- AtTime of recurring.go lines 80-88: ForTime t builds the instant with
clock time hour24:minute on the day of t (time.Date with zero second and
nanosecond), advances it one day when it is not strictly after t, and
returns a dateStream starting there. -/
def AtTime (hour24 minute : Int) : RSched :=
  fun t =>
    let firstT := dayNs * (t / dayNs) + hour24 * hourNs + minute * minuteNs
    if firstT > t then .dateStream firstT else .dateStream (firstT + dayNs)

/-- Modify of recurring.go lines 44-48: wrap the stream produced by r with
the transform f. -/
def Modify (r : RSched) (f : GoStream → GoStream) : RSched :=
  fun t => f (r t)

/-- FirstN of recurring.go lines 62-68: Modify with functional.Slice(s, 0, n). -/
def FirstN (r : RSched) (n : Int) : RSched :=
  Modify r (fun s => .sliceStream s 0 n)

/-- Hour read off a modelled instant, as Go time.Time.Hour in the
fixed-offset location: the hour of the nanosecond-of-day. -/
def goHour (v : Int) : Int := (v % dayNs) / hourNs

/-- Minute read off a modelled instant, as Go time.Time.Minute. -/
def goMinute (v : Int) : Int := ((v % dayNs) % hourNs) / minuteNs

/-- Second read off a modelled instant, as Go time.Time.Second. -/
def goSecond (v : Int) : Int := ((v % dayNs) % minuteNs) / 1000000000

/-- Nanosecond read off a modelled instant, as Go time.Time.Nanosecond. -/
def goNanosecond (v : Int) : Int := v % 1000000000

theorem intervalStream_nth (a d : Int) (k : Nat) :
    streamNth (.intervalStream a d) k = some (a + d * k) := by
  induction k generalizing a with
  | zero => simp [streamNth, streamNext]
  | succ k ih =>
      simp only [streamNth, streamNext]
      rw [ih]
      congr 1
      push_cast
      ring

theorem dateStream_nth (a : Int) (k : Nat) :
    streamNth (.dateStream a) k = some (a + dayNs * k) := by
  induction k generalizing a with
  | zero => simp [streamNth, streamNext]
  | succ k ih =>
      simp only [streamNth, streamNext]
      rw [ih]
      congr 1
      push_cast
      ring

/-- C5 (amended): for every instant t and every positive duration d, the
stream AtInterval(d).ForTime(t) emits the sequence t+d, t+2d, t+3d, ...,
every emitted value is strictly after t, and the sequence is strictly
ascending. (For d = 0 or d < 0 the emission formula still holds but the
strictly-after and strict-ascent parts fail, see the counterexample.) -/
theorem spec_C5 (t d : Int) (hd : 0 < d) :
    (∀ k : Nat, streamNth (AtInterval d t) k = some (t + ((k : Int) + 1) * d)) ∧
    (∀ (k : Nat) (v : Int), streamNth (AtInterval d t) k = some v → t < v) ∧
    (∀ (k : Nat) (u v : Int), streamNth (AtInterval d t) k = some u →
      streamNth (AtInterval d t) (k + 1) = some v → u < v) := by
  have hnth : ∀ k : Nat, streamNth (AtInterval d t) k = some (t + ((k : Int) + 1) * d) := by
    intro k
    simp only [AtInterval]
    rw [intervalStream_nth]
    congr 1
    ring
  refine ⟨hnth, ?_, ?_⟩
  · intro k v hv
    rw [hnth k] at hv
    have hkpos : (0 : Int) < (k : Int) + 1 := by positivity
    have := mul_pos hkpos hd
    have hv2 : v = t + ((k : Int) + 1) * d := by
      exact (Option.some.injEq _ _).mp hv.symm
    linarith
  · intro k u v hu hv
    rw [hnth k] at hu
    rw [hnth (k + 1)] at hv
    have hu2 : u = t + ((k : Int) + 1) * d := (Option.some.injEq _ _).mp hu.symm
    have hv2 : v = t + (((k : Nat) + 1 : Nat) + 1 : Int) * d := (Option.some.injEq _ _).mp hv.symm
    have hcast : (((k : Nat) + 1 : Nat) : Int) = (k : Int) + 1 := by push_cast; ring
    rw [hv2, hu2, hcast]
    nlinarith

/-- C5 counterexample: the claim quantifies over every duration d, but at
d = 0 (and starting instant 0) the first emitted value of
AtInterval(0).ForTime(0) is 0 itself, which is not strictly after the
starting instant. -/
theorem spec_C5_counterexample :
    ¬ (∀ (k : Nat) (v : Int), streamNth (AtInterval 0 0) k = some v → (0 : Int) < v) := by
  intro h
  exact absurd (h 0 0 rfl) (by decide)

/-- Witness for spec_C5 at t = 0, d = one hour. -/
theorem spec_C5_witness :
    (0 : Int) < hourNs ∧
    streamNth (AtInterval hourNs 0) 0 = some (0 + (((0 : Nat) : Int) + 1) * hourNs) :=
  ⟨by decide, (spec_C5 0 hourNs (by decide)).1 0⟩

/-- C7: for every starting instant t, FirstN(AtInterval(1h), 3).ForTime(t)
emits exactly the three values t+1h, t+2h, t+3h and then signals ended,
although the underlying interval stream is infinite. -/
theorem spec_C7 (t : Int) :
    (streamTake 4 (FirstN (AtInterval hourNs) 3 t)).1 =
      [t + hourNs, t + 2 * hourNs, t + 3 * hourNs] ∧
    (streamNext (streamTake 4 (FirstN (AtInterval hourNs) 3 t)).2).1 = none := by
  refine ⟨?_, ?_⟩
  · simp [FirstN, Modify, AtInterval, streamTake, streamNext, hourNs]
    omega
  · simp [FirstN, Modify, AtInterval, streamTake, streamNext, hourNs]

/-- C10: for the streams produced by AtInterval and AtTime, Close (the
embedded closeDoesNothing.Close) always returns nil and leaves the stream
state completely unchanged; it is idempotent, and any run of Next calls
yields the same values whether or not Close was called before them. -/
theorem spec_C10 (s : GoStream) :
    closeDoesNothing_Close s = (none, s) ∧
    closeDoesNothing_Close (closeDoesNothing_Close s).2 = closeDoesNothing_Close s ∧
    ∀ n : Nat, streamTake n (closeDoesNothing_Close s).2 = streamTake n s :=
  ⟨rfl, rfl, fun _ => rfl⟩

theorem AtTime_stream (h m t : Int) :
    AtTime h m t = .dateStream
      (if t < dayNs * (t / dayNs) + h * hourNs + m * minuteNs
       then dayNs * (t / dayNs) + h * hourNs + m * minuteNs
       else dayNs * (t / dayNs) + h * hourNs + m * minuteNs + dayNs) := by
  simp only [AtTime, gt_iff_lt]
  split_ifs <;> rfl

/-- C8: for every instant t and valid hour24/minute, the first value of
AtTime(hour24, minute).ForTime(t) is the occurrence of that wall-clock time
on the day of t when that occurrence is still strictly after t and otherwise
the occurrence on the next day; the first value is strictly after t; each
subsequent value is exactly one calendar day after the previous one; and the
stream never ends. -/
theorem spec_C8 (t h m : Int) (h0 : 0 ≤ h) (h1 : h < 24) (h2 : 0 ≤ m) (h3 : m < 60) :
    (streamNth (AtTime h m t) 0 =
      some (if t < dayNs * (t / dayNs) + h * hourNs + m * minuteNs
            then dayNs * (t / dayNs) + h * hourNs + m * minuteNs
            else dayNs * (t / dayNs) + h * hourNs + m * minuteNs + dayNs)) ∧
    (∀ v : Int, streamNth (AtTime h m t) 0 = some v → t < v) ∧
    (∀ k : Nat, streamNth (AtTime h m t) (k + 1) =
      Option.map (fun v => v + dayNs) (streamNth (AtTime h m t) k)) ∧
    (∀ k : Nat, (streamNth (AtTime h m t) k).isSome = true) := by
  rw [AtTime_stream]
  refine ⟨?_, ?_, ?_, ?_⟩
  · simpa using dateStream_nth _ 0
  · intro v hv
    rw [dateStream_nth] at hv
    have hveq : v = (if t < dayNs * (t / dayNs) + h * hourNs + m * minuteNs
            then dayNs * (t / dayNs) + h * hourNs + m * minuteNs
            else dayNs * (t / dayNs) + h * hourNs + m * minuteNs + dayNs) + dayNs * (0 : Nat) :=
      (Option.some.inj hv).symm
    split_ifs at hveq with hc
    · simp only [dayNs, hourNs, minuteNs] at *
      omega
    · simp only [dayNs, hourNs, minuteNs] at *
      omega
  · intro k
    rw [dateStream_nth, dateStream_nth]
    simp only [Option.map_some']
    congr 1
    push_cast
    ring
  · intro k
    rw [dateStream_nth]
    rfl

/-- C9: every value emitted by AtTime(hour24, minute).ForTime(t) has hour
equal to hour24, minute equal to minute, and second and nanosecond equal to
zero, in the fixed-offset location of t: the second and sub-second
components of the starting instant never leak into the schedule. -/
theorem spec_C9 (t h m : Int) (h0 : 0 ≤ h) (h1 : h < 24) (h2 : 0 ≤ m) (h3 : m < 60) :
    ∀ (k : Nat) (v : Int), streamNth (AtTime h m t) k = some v →
      goHour v = h ∧ goMinute v = m ∧ goSecond v = 0 ∧ goNanosecond v = 0 := by
  intro k v hv
  rw [AtTime_stream, dateStream_nth] at hv
  have hveq : v = (if t < dayNs * (t / dayNs) + h * hourNs + m * minuteNs
        then dayNs * (t / dayNs) + h * hourNs + m * minuteNs
        else dayNs * (t / dayNs) + h * hourNs + m * minuteNs + dayNs) + dayNs * (k : Nat) :=
    (Option.some.inj hv).symm
  split_ifs at hveq with hc
  · simp only [goHour, goMinute, goSecond, goNanosecond, dayNs, hourNs, minuteNs] at *
    refine ⟨?_, ?_, ?_, ?_⟩ <;> omega
  · simp only [goHour, goMinute, goSecond, goNanosecond, dayNs, hourNs, minuteNs] at *
    refine ⟨?_, ?_, ?_, ?_⟩ <;> omega

/-- Witness for spec_C8 at t = 0, hour24 = 7, minute = 0. -/
theorem spec_C8_witness :
    (0 : Int) ≤ 7 ∧ streamNth (AtTime 7 0 0) 0 =
      some (if (0 : Int) < dayNs * ((0 : Int) / dayNs) + 7 * hourNs + 0 * minuteNs
            then dayNs * ((0 : Int) / dayNs) + 7 * hourNs + 0 * minuteNs
            else dayNs * ((0 : Int) / dayNs) + 7 * hourNs + 0 * minuteNs + dayNs) :=
  ⟨by decide, (spec_C8 0 7 0 (by decide) (by decide) (by decide) (by decide)).1⟩

/-- Witness for spec_C9 at t = 0, hour24 = 7, minute = 0, first emitted
value 25200000000000 (07:00 on day zero). -/
theorem spec_C9_witness :
    goHour 25200000000000 = 7 ∧ goMinute 25200000000000 = 0 ∧
    goSecond 25200000000000 = 0 ∧ goNanosecond 25200000000000 = 0 :=
  spec_C9 0 7 0 (by decide) (by decide) (by decide) (by decide) 0 25200000000000 (by decide)

/-- Heap entry of the merge engine: the item type of recurring.go lines
132-136, pairing a sub-stream with its most recently pulled value t and the
error result e of that pull. Only the nilness of the Go error is ever
consumed, so e is a Bool: true when the last pull signalled ended/errored. -/
structure item where
  stream : GoStream
  t : Int
  e : Bool
deriving DecidableEq, Repr

/-- Entry used as the out-of-range default of list lookups; the merge code
never reads out of range. -/
def dummyItem : item := ⟨.intervalStream 0 0, 0, true⟩

/-- item.pop of recurring.go lines 138-140: pull the next value of the
sub-stream into t and record the error result of the pull in e. On an
ended/errored pull the old t stays in place, since Next then does not write
through the pointer. -/
def item.pop (i : item) : item :=
  match streamNext i.stream with
  | (some v, s2) => ⟨s2, v, false⟩
  | (none, s2) => ⟨s2, i.t, true⟩

/-- Comparison of two heap entries exactly as written in streamHeap.Less,
recurring.go lines 148-156: when the first entry is errored the result is
whether the second is not errored; when only the second is errored the
result is false; otherwise the stored times are compared with Before. -/
def lessItem (a b : item) : Bool :=
  if a.e then !b.e
  else if b.e then false
  else decide (a.t < b.t)

/-- streamHeap.Less of recurring.go lines 148-156, indexing into the heap
slice. -/
def streamHeapLess (sh : List item) (i j : Nat) : Bool :=
  lessItem (sh.getD i dummyItem) (sh.getD j dummyItem)

/-- Swap of two heap slots, the intent of streamHeap.Swap (recurring.go
lines 158-160, whose body is syntactically damaged in the source). -/
def heapSwap (sh : List item) (i j : Nat) : List item :=
  (sh.set i (sh.getD j dummyItem)).set j (sh.getD i dummyItem)

/-- Sift-down of the Go standard library container/heap (the external
collaborator driving the heap): starting at slot i, repeatedly swap with the
smaller child while that child is Less than the current slot. The fuel
argument bounds the walk; the slice length always suffices. -/
def heapDownAux : Nat → List item → Nat → List item
  | 0, sh, _ => sh
  | fuel + 1, sh, i =>
      let n := sh.length
      let j1 := 2 * i + 1
      if j1 ≥ n then sh
      else
        let j := if j1 + 1 < n && lessItem (sh.getD (j1 + 1) dummyItem) (sh.getD j1 dummyItem)
                 then j1 + 1 else j1
        if lessItem (sh.getD j dummyItem) (sh.getD i dummyItem) then
          heapDownAux fuel (heapSwap sh i j) j
        else sh

/-- Sift-down with enough fuel for any walk in the slice. -/
def heapDown (sh : List item) (i : Nat) : List item :=
  heapDownAux sh.length sh i

/-- heap.Init of the Go standard library container/heap: sift-down at the
slots n/2-1 down to 0. -/
def heapInitAux : Nat → List item → List item
  | 0, sh => sh
  | k + 1, sh => heapInitAux k (heapDown sh k)

/-- heap.Init entry point, establishing the heap invariant. -/
def heapInit (sh : List item) : List item :=
  heapInitAux (sh.length / 2) sh

/-- combineStreams of recurring.go lines 122-130: build one entry per input
stream, pull one value from every sub-stream up front via item.pop, then
establish the heap invariant with heap.Init. -/
def combineStreams (streams : List GoStream) : List item :=
  heapInit (streams.map (fun s => item.pop ⟨s, 0, false⟩))

/-- Modelled from the spec: the Next of the merged stream. The mergeStream
type is named at recurring.go line 129 but never defined in the source, so
its Next is taken from spec section 4.4: when the heap is empty or its
minimum entry is errored/ended, signal ended; otherwise emit the minimum
entry's value, refresh that entry by pulling from the same sub-stream, and
restore the heap invariant. -/
def mergeNext (sh : List item) : Option Int × List item :=
  match sh with
  | [] => (none, [])
  | top :: rest =>
      if top.e then (none, top :: rest)
      else (some top.t, heapDown ((top :: rest).set 0 (item.pop top)) 0)

/-- Pull up to n values from the merged stream, stopping at the first ended
signal. -/
def mergeTake : Nat → List item → List Int × List item
  | 0, sh => ([], sh)
  | k + 1, sh =>
      match mergeNext sh with
      | (some v, sh2) =>
          let r := mergeTake k sh2
          (v :: r.1, r.2)
      | (none, sh2) => ([], sh2)

/-- Combine of recurring.go lines 32-40, with the obvious repair of its
truncated ForTime call (line 36 reads rs[i].ForTime( with the argument and
closing parenthesis missing; the only value in scope to pass is t): the
merged stream over the sub-streams obtained from every schedule at the
common starting instant. -/
def CombineForTime (rs : List RSched) (t : Int) : List item :=
  combineStreams (rs.map (fun r => r t))

/-- C2: the claim states that streamHeap.Less compares every errored/ended
entry as greater than every entry holding a real value, so Less(i,j) is
false when entry i is errored and entry j is real. The code does the
opposite: on the two-entry heap below, entry 0 errored and entry 1 holding
the real value 1h, Less(0,1) evaluates to true, the errored entry is the
heap minimum, and the merged stream signals ended although the other entry
still holds a real value. -/
theorem spec_C2_bug :
    streamHeapLess
      [⟨.dateStream 0, 0, true⟩,
       ⟨.intervalStream (2 * hourNs) hourNs, hourNs, false⟩] 0 1 = true ∧
    (mergeNext
      [⟨.dateStream 0, 0, true⟩,
       ⟨.intervalStream (2 * hourNs) hourNs, hourNs, false⟩]).1 = none := by
  exact ⟨rfl, rfl⟩

/-- C4: the claim states that the merged stream emits the multiset union of
its inputs in ascending order and ends only once every input is exhausted.
On Combine(FirstN(AtInterval(1h), 1), FirstN(AtInterval(2h), 2)).ForTime(0),
whose inputs hold the values one hour and two hours / four hours, the merge
emits only the one-hour value and then signals ended: after the first input
is exhausted its errored entry becomes the heap minimum (see spec_C2_bug)
and the run stops while the second entry still holds the real value two
hours, as the final heap state shows. -/
theorem spec_C4_bug :
    (mergeTake 4 (CombineForTime
        [FirstN (AtInterval hourNs) 1, FirstN (AtInterval (2 * hourNs)) 2] 0)).1
      = [hourNs] ∧
    ((mergeTake 4 (CombineForTime
        [FirstN (AtInterval hourNs) 1, FirstN (AtInterval (2 * hourNs)) 2] 0)).2.getD 1
        dummyItem).e = false ∧
    ((mergeTake 4 (CombineForTime
        [FirstN (AtInterval hourNs) 1, FirstN (AtInterval (2 * hourNs)) 2] 0)).2.getD 1
        dummyItem).t = 2 * hourNs ∧
    (streamTake 4 (FirstN (AtInterval (2 * hourNs)) 2 0)).1 = [2 * hourNs, 4 * hourNs] := by
  exact ⟨by decide, by decide, by decide, by decide⟩

/-- Error value used by the tests, kSomeError of src/tasks_test.go line 18. -/
def kSomeError : String := "tasks: some error"

/-- Modelled from the spec: the Execution control block of the tasks
package, whose source is not under src (only tasks_test.go is). Fields per
spec section 3: the configured clock's current instant, the recorded error
(first setter wins), and the cancellation flag. The extra field pendingEnd
models an End call that will arrive while the next interruptible sleep is in
progress; no End call arrives when it is false. -/
structure Execution where
  now : Int
  err : Option String
  ended : Bool
  pendingEnd : Bool
deriving DecidableEq, Repr

/-- Modelled from the spec: Execution.SetError, section 4.1 — records the
run's terminal error when none has been recorded yet; later calls are
dropped. -/
def Execution.SetError (e : Execution) (anErr : String) : Execution :=
  if e.err.isSome then e else { e with err := some anErr }

/-- Modelled from the spec: Execution.Sleep, sections 2 and 4.1, under the
deterministic virtual clock of ClockForTesting: sleeping advances the clock
synchronously by the requested duration, and when an End call arrives during
the sleep it returns early with the cancellation flag set. -/
def Execution.Sleep (e : Execution) (d : Int) : Execution :=
  if e.pendingEnd then { e with ended := true, pendingEnd := false }
  else { e with now := e.now + d }

/-- State of the fakeTask of src/tasks_test.go lines 215-235: configured run
duration and error, the recorded invocation timestamps, and the completed
run count. -/
structure fakeTask where
  runDuration : Int
  err : Option String
  timeStamps : List Int
  timesRun : Nat
deriving DecidableEq, Repr

/-- fakeTask.Do of src/tasks_test.go lines 222-231: record the Execution's
current instant, record the configured error if any, sleep for the
configured run duration if positive, and count the completed run. -/
def fakeTask.Do (ft : fakeTask) (e : Execution) : fakeTask × Execution :=
  let ft1 := { ft with timeStamps := ft.timeStamps ++ [e.now] }
  let e1 := match ft1.err with
            | some anErr => e.SetError anErr
            | none => e
  let e2 := if ft1.runDuration > 0 then e1.Sleep ft1.runDuration else e1
  ({ ft1 with timesRun := ft1.timesRun + 1 }, e2)

/-- Task state used as the out-of-range default of list lookups. -/
def dummyTask : fakeTask := ⟨0, none, [], 0⟩

/-- Modelled from the spec: SeriesTasks, section 4.2 — runs the sub-tasks
strictly in order on the shared Execution, and before starting each sub-task
checks that no End was requested and that no error has been recorded. The
error check follows the resolution the spec itself adopts for RepeatingTask
(continue only while the recorded error is still unset) and the in-src test
TestSeries, src/tasks_test.go lines 40-68, which asserts that after the
second of three sub-tasks records an error the third one is not run. -/
def SeriesTasks : List fakeTask → Execution → List fakeTask × Execution
  | [], e => ([], e)
  | ft :: rest, e =>
      if e.ended || e.err.isSome then (ft :: rest, e)
      else
        let r := ft.Do e
        let r2 := SeriesTasks rest r.2
        (r.1 :: r2.1, r2.2)

/-- Modelled from the spec: RepeatingTask, section 4.2 — runs the task n
times in sequence on the shared Execution, stopping before a repetition when
End was requested or an error has been recorded. -/
def RepeatingTask : fakeTask → Execution → Nat → fakeTask × Execution
  | ft, e, 0 => (ft, e)
  | ft, e, n + 1 =>
      if e.ended || e.err.isSome then (ft, e)
      else
        let r := ft.Do e
        RepeatingTask r.1 r.2 n

theorem SeriesTasks_stopped (l : List fakeTask) (e : Execution)
    (h : e.ended = true ∨ e.err.isSome = true) : SeriesTasks l e = (l, e) := by
  cases l with
  | nil => rfl
  | cons ft rest =>
      rcases h with h | h <;> simp [SeriesTasks, h]

theorem RepeatingTask_stopped (ft : fakeTask) (e : Execution) (n : Nat)
    (h : e.ended = true ∨ e.err.isSome = true) : RepeatingTask ft e n = (ft, e) := by
  cases n with
  | zero => rfl
  | succ n =>
      rcases h with h | h <;> simp [RepeatingTask, h]

theorem fakeTask_Do_clean (ft : fakeTask) (e : Execution) (hft : ft.err = none)
    (hp : e.pendingEnd = false) :
    (ft.Do e).1.err = none ∧ (ft.Do e).1.timesRun = ft.timesRun + 1 ∧
    (ft.Do e).2.ended = e.ended ∧ (ft.Do e).2.err = e.err ∧
    (ft.Do e).2.pendingEnd = false := by
  simp only [fakeTask.Do, hft]
  split_ifs with h
  · simp [Execution.Sleep, hp]
  · simp [hp]

theorem fakeTask_Do_err (ft : fakeTask) (e : Execution) (er : String)
    (hft : ft.err = some er) (herr : e.err = none) :
    (ft.Do e).1.timesRun = ft.timesRun + 1 ∧ (ft.Do e).2.err = some er := by
  refine ⟨by simp [fakeTask.Do], ?_⟩
  simp only [fakeTask.Do, hft, Execution.SetError, herr, Option.isSome_none,
    Bool.false_eq_true, if_false, Execution.Sleep]
  split_ifs <;> rfl

/-- C1 counterexample, the configuration of the in-src test TestSeries
(src/tasks_test.go lines 40-68): three sub-tasks under SeriesTasks, End
never called, the second sub-task recording kSomeError. The first two
sub-tasks run once, the error is recorded, and the third sub-task is never
started — its run count stays zero — refuting the claim that the remaining
sub-tasks are still started after a recorded error. -/
theorem spec_C1_counterexample :
    ((SeriesTasks [⟨0, none, [], 0⟩, ⟨0, some kSomeError, [], 0⟩, ⟨0, none, [], 0⟩]
        ⟨0, none, false, false⟩).1.getD 0 dummyTask).timesRun = 1 ∧
    ((SeriesTasks [⟨0, none, [], 0⟩, ⟨0, some kSomeError, [], 0⟩, ⟨0, none, [], 0⟩]
        ⟨0, none, false, false⟩).1.getD 1 dummyTask).timesRun = 1 ∧
    ((SeriesTasks [⟨0, none, [], 0⟩, ⟨0, some kSomeError, [], 0⟩, ⟨0, none, [], 0⟩]
        ⟨0, none, false, false⟩).1.getD 2 dummyTask).timesRun = 0 ∧
    (SeriesTasks [⟨0, none, [], 0⟩, ⟨0, some kSomeError, [], 0⟩, ⟨0, none, [], 0⟩]
        ⟨0, none, false, false⟩).2.err = some kSomeError := by
  refine ⟨by decide, by decide, by decide, by decide⟩

/-- C1 (amended): under SeriesTasks with End never called, once a sub-task
records an error the series stops before starting the next sub-task: every
sub-task before the first erroring one runs exactly once, the erroring
sub-task itself runs exactly once to completion, every sub-task after it is
left unstarted and unchanged, and the recorded error is the erroring
sub-task's error. -/
theorem spec_C1 (pre post : List fakeTask) (ft : fakeTask) (e : Execution) (er : String)
    (hpre : ∀ tk ∈ pre, tk.err = none) (hft : ft.err = some er)
    (he : e.ended = false) (herr : e.err = none) (hp : e.pendingEnd = false) :
    (∀ i : Nat, i < pre.length →
      ((SeriesTasks (pre ++ ft :: post) e).1.getD i dummyTask).timesRun
        = (pre.getD i dummyTask).timesRun + 1) ∧
    ((SeriesTasks (pre ++ ft :: post) e).1.getD pre.length dummyTask).timesRun
      = ft.timesRun + 1 ∧
    (∀ j : Nat, (SeriesTasks (pre ++ ft :: post) e).1.getD (pre.length + 1 + j) dummyTask
      = post.getD j dummyTask) ∧
    (SeriesTasks (pre ++ ft :: post) e).2.err = some er := by
  induction pre generalizing e with
  | nil =>
      have hdo := fakeTask_Do_err ft e er hft herr
      simp only [List.nil_append, List.length_nil]
      have hrun : SeriesTasks (ft :: post) e
          = ((ft.Do e).1 :: post, (ft.Do e).2) := by
        simp only [SeriesTasks, he, herr]
        simp only [Option.isSome_none, Bool.or_false, Bool.false_or, if_neg Bool.false_ne_true]
        rw [SeriesTasks_stopped post (ft.Do e).2 (Or.inr (by rw [hdo.2]; rfl))]
      rw [hrun]
      refine ⟨by omega, by simpa using hdo.1, ?_, hdo.2⟩
      intro j
      have hj : 1 + j = j + 1 := by omega
      rw [hj]
      simp [List.getD]
  | cons p pre2 ih =>
      have hpnone : p.err = none := hpre p (by simp)
      have hdo := fakeTask_Do_clean p e hpnone hp
      have hrun : SeriesTasks ((p :: pre2) ++ ft :: post) e
          = ((p.Do e).1 :: (SeriesTasks (pre2 ++ ft :: post) (p.Do e).2).1,
             (SeriesTasks (pre2 ++ ft :: post) (p.Do e).2).2) := by
        simp only [List.cons_append, SeriesTasks, he, herr]
        simp only [Option.isSome_none, Bool.or_false, Bool.false_or, if_neg Bool.false_ne_true]
        rfl
      have ihx := ih (p.Do e).2 (fun tk htk => hpre tk (by simp [htk]))
        (by rw [hdo.2.2.1, he]) (by rw [hdo.2.2.2.1, herr]) hdo.2.2.2.2
      rw [hrun]
      refine ⟨?_, ?_, ?_, ihx.2.2.2⟩
      · intro i hi
        cases i with
        | zero => simpa using hdo.2.1
        | succ i =>
            simp only [List.getD_cons_succ, List.length_cons] at *
            exact ihx.1 i (by omega)
      · simpa using ihx.2.1
      · intro j
        have : (p :: pre2).length + 1 + j = ((pre2.length + 1 + j) + 1) := by
          simp [List.length_cons]
          omega
        rw [this]
        simpa using ihx.2.2.1 j

/-- Witness for spec_C1 on the TestSeries configuration: the erroring
sub-task (index 1) itself completes exactly one run. -/
theorem spec_C1_witness :
    ((SeriesTasks ([⟨0, none, [], 0⟩] ++ ⟨0, some kSomeError, [], 0⟩ :: [⟨0, none, [], 0⟩])
        ⟨0, none, false, false⟩).1.getD 1 dummyTask).timesRun = 0 + 1 :=
  (spec_C1 [⟨0, none, [], 0⟩] [⟨0, none, [], 0⟩] ⟨0, some kSomeError, [], 0⟩
      ⟨0, none, false, false⟩ kSomeError (by simp) rfl rfl rfl rfl).2.1

/-- C6: RepeatingTask(task, n) invokes task.Do exactly n times when End is
never called and the task never records an error; invokes it exactly once
and stops when the task records an error on its first run; and invokes it
exactly once when End is called while the first run is sleeping (the task
must actually sleep, so its run duration is positive). -/
theorem spec_C6 :
    (∀ (n : Nat) (ft : fakeTask) (e : Execution), ft.err = none → e.ended = false →
      e.err = none → e.pendingEnd = false →
      (RepeatingTask ft e n).1.timesRun = ft.timesRun + n) ∧
    (∀ (n : Nat) (ft : fakeTask) (e : Execution) (er : String), 1 ≤ n →
      ft.err = some er → e.ended = false → e.err = none →
      (RepeatingTask ft e n).1.timesRun = ft.timesRun + 1) ∧
    (∀ (n : Nat) (ft : fakeTask) (e : Execution), 1 ≤ n → ft.err = none →
      0 < ft.runDuration → e.ended = false → e.err = none → e.pendingEnd = true →
      (RepeatingTask ft e n).1.timesRun = ft.timesRun + 1) := by
  refine ⟨?_, ?_, ?_⟩
  · intro n
    induction n with
    | zero => intro ft e _ _ _ _; simp [RepeatingTask]
    | succ n ih =>
        intro ft e hft he herr hp
        have hdo := fakeTask_Do_clean ft e hft hp
        have hrun : RepeatingTask ft e (n + 1) = RepeatingTask (ft.Do e).1 (ft.Do e).2 n := by
          simp only [RepeatingTask, he, herr]
          rfl
        rw [hrun]
        have hft2 : (ft.Do e).1.err = none := hdo.1
        have := ih (ft.Do e).1 (ft.Do e).2 hft2 (by rw [hdo.2.2.1, he])
          (by rw [hdo.2.2.2.1, herr]) hdo.2.2.2.2
        rw [this, hdo.2.1]
        omega
  · intro n ft e er hn hft he herr
    obtain ⟨m, rfl⟩ : ∃ m, n = m + 1 := ⟨n - 1, by omega⟩
    have hdo := fakeTask_Do_err ft e er hft herr
    have hrun : RepeatingTask ft e (m + 1) = RepeatingTask (ft.Do e).1 (ft.Do e).2 m := by
      simp only [RepeatingTask, he, herr]
      rfl
    rw [hrun, RepeatingTask_stopped _ _ _ (Or.inr (by rw [hdo.2]; rfl)), hdo.1]
  · intro n ft e hn hft hd he herr hp
    obtain ⟨m, rfl⟩ : ∃ m, n = m + 1 := ⟨n - 1, by omega⟩
    have hrun : RepeatingTask ft e (m + 1) = RepeatingTask (ft.Do e).1 (ft.Do e).2 m := by
      simp only [RepeatingTask, he, herr]
      rfl
    have hdoend : (ft.Do e).2.ended = true := by
      simp only [fakeTask.Do, hft, Execution.Sleep]
      simp [hd, hp]
    have hdorun : (ft.Do e).1.timesRun = ft.timesRun + 1 := by
      simp [fakeTask.Do]
    rw [hrun, RepeatingTask_stopped _ _ _ (Or.inl hdoend), hdorun]

/-- Witness for spec_C6: five repetitions of an error-free task run five
times; an error-recording task and an ended-mid-sleep task each run once. -/
theorem spec_C6_witness :
    (RepeatingTask ⟨0, none, [], 0⟩ ⟨0, none, false, false⟩ 5).1.timesRun = 0 + 5 ∧
    (RepeatingTask ⟨0, some kSomeError, [], 0⟩ ⟨0, none, false, false⟩ 5).1.timesRun = 0 + 1 ∧
    (RepeatingTask ⟨hourNs, none, [], 0⟩ ⟨0, none, false, true⟩ 5).1.timesRun = 0 + 1 :=
  ⟨spec_C6.1 5 ⟨0, none, [], 0⟩ ⟨0, none, false, false⟩ rfl rfl rfl rfl,
   spec_C6.2.1 5 ⟨0, some kSomeError, [], 0⟩ ⟨0, none, false, false⟩ kSomeError
     (by omega) rfl rfl rfl,
   spec_C6.2.2 5 ⟨hourNs, none, [], 0⟩ ⟨0, none, false, true⟩ (by omega) rfl
     (by decide) rfl rfl rfl⟩

theorem addSubSelf (a b : Int) : a + (b - a) = b := by ring

/-- Modelled from the spec: steps b and c of the RecurringTask loop,
section 4.2 — pull ticks from the stream, discarding every tick that is not
strictly after the current instant (the skip-missed-ticks policy), until a
strictly future tick is found or the stream signals ended. The fuel bounds
the scan. -/
def pullFuture : Nat → GoStream → Int → Option Int × GoStream
  | 0, s, _ => (none, s)
  | fuel + 1, s, now =>
      match streamNext s with
      | (none, s2) => (none, s2)
      | (some v, s2) => if now < v then (some v, s2) else pullFuture fuel s2 now

/-- Modelled from the spec: the RecurringTask driver loop of section 4.2,
run on the virtual clock: stop when End was requested; pull the next
strictly future tick, stopping when the stream ends; sleep until the tick
(after the virtual sleep the Execution's now equals the tick, so the
invocation observes the scheduled instant as step e requires); stop when
the sleep was ended; invoke the task; stop when an error is now recorded.
The fuel bounds the loop and the inner skip scans. -/
def RecurringTaskRun : Nat → fakeTask → Execution → GoStream → fakeTask × Execution
  | 0, ft, e, _ => (ft, e)
  | fuel + 1, ft, e, s =>
      if e.ended then (ft, e)
      else
        match pullFuture (fuel + 1) s e.now with
        | (none, _) => (ft, e)
        | (some tick, s2) =>
            let e1 := e.Sleep (tick - e.now)
            if e1.ended then (ft, e1)
            else
              let r := ft.Do e1
              if r.2.err.isSome then (r.1, r.2)
              else RecurringTaskRun fuel r.1 r.2 s2

/-- C3: for every starting instant T0, the recurring driver over
FirstN(AtInterval(1h), 3) with a task whose body takes one hour records
exactly the invocation timestamps T0+1h and T0+3h under the virtual clock:
the T0+2h tick is discarded by the skip-missed-ticks policy, and each
invocation observes the clock at its scheduled tick. -/
theorem spec_C3 (T0 : Int) :
    (RecurringTaskRun 10 ⟨hourNs, none, [], 0⟩ ⟨T0, none, false, false⟩
        (FirstN (AtInterval hourNs) 3 T0)).1.timeStamps
      = [T0 + hourNs, T0 + 3 * hourNs] := by
  simp only [FirstN, Modify, AtInterval]
  simp [RecurringTaskRun, pullFuture, streamNext, fakeTask.Do, Execution.Sleep,
    Execution.SetError, addSubSelf, hourNs, lt_add_iff_pos_right, lt_self_iff_false]
  omega
